import Mathlib

/-!
Verification of the Chrono multicore collision system
(`ChCollisionSystemChrono`, broad-phase grid binning, narrow-phase contact
generation, AABB generation) against its natural-language specification.

The repository snapshot contains the orchestrator header
(`ChCollisionSystemChrono`, with inline bodies for `RayHit` and
`ReportProximities`) and the `ChBroadphase` header, but not the `.cpp`
implementation files.  The pipeline itself (`Run`, broad-phase binning,
narrow-phase tests, AABB generation, active-box handling) is therefore
modelled from the specification, as an executable shallow embedding over
exact rational arithmetic.  Each spec-modelled definition says so in its
doc comment.
-/

namespace ChronoCollision

/-- A 3D vector with exact rational coordinates (models `real3`). -/
structure Vec3 where
  x : ℚ
  y : ℚ
  z : ℚ
deriving DecidableEq, Repr

instance : Add Vec3 := ⟨fun a b => ⟨a.x + b.x, a.y + b.y, a.z + b.z⟩⟩

instance : Sub Vec3 := ⟨fun a b => ⟨a.x - b.x, a.y - b.y, a.z - b.z⟩⟩

/-- Scalar multiple of a vector. -/
def scale (q : ℚ) (v : Vec3) : Vec3 := ⟨q * v.x, q * v.y, q * v.z⟩

/-- Squared Euclidean norm. -/
def normSq (v : Vec3) : ℚ := v.x ^ 2 + v.y ^ 2 + v.z ^ 2

/-- A 3x3 matrix, stored by rows; models the rotation matrix of a body
world transform. -/
structure Mat3 where
  r0 : Vec3
  r1 : Vec3
  r2 : Vec3
deriving DecidableEq, Repr

/-- Dot product. -/
def dotv (a b : Vec3) : ℚ := a.x * b.x + a.y * b.y + a.z * b.z

/-- Apply a matrix to a vector. -/
def Mat3.apply (m : Mat3) (v : Vec3) : Vec3 := ⟨dotv m.r0 v, dotv m.r1 v, dotv m.r2 v⟩

/-- The identity rotation. -/
def idMat : Mat3 := ⟨⟨1, 0, 0⟩, ⟨0, 1, 0⟩, ⟨0, 0, 1⟩⟩

/-- Axis-aligned bounding box: minimum and maximum world-space corners. -/
structure AABB where
  lo : Vec3
  hi : Vec3
deriving DecidableEq, Repr

/-- Membership of a point in an AABB (closed box). -/
def inAABB (p : Vec3) (b : AABB) : Prop :=
  b.lo.x ≤ p.x ∧ p.x ≤ b.hi.x ∧
  b.lo.y ≤ p.y ∧ p.y ≤ b.hi.y ∧
  b.lo.z ≤ p.z ∧ p.z ≤ b.hi.z

instance (p : Vec3) (b : AABB) : Decidable (inAABB p b) := by
  unfold inAABB; infer_instance

/-- Two AABBs overlap (closed-interval test on every axis). -/
def AABBoverlap (a b : AABB) : Prop :=
  a.lo.x ≤ b.hi.x ∧ b.lo.x ≤ a.hi.x ∧
  a.lo.y ≤ b.hi.y ∧ b.lo.y ≤ a.hi.y ∧
  a.lo.z ≤ b.hi.z ∧ b.lo.z ≤ a.hi.z

instance (a b : AABB) : Decidable (AABBoverlap a b) := by
  unfold AABBoverlap; infer_instance

/-- Boolean overlap test used inside the broad-phase. -/
def overlapB (a b : AABB) : Bool := decide (AABBoverlap a b)

/-- Smallest AABB containing two AABBs. -/
def mergeAABB (a b : AABB) : AABB :=
  ⟨⟨min a.lo.x b.lo.x, min a.lo.y b.lo.y, min a.lo.z b.lo.z⟩,
   ⟨max a.hi.x b.hi.x, max a.hi.y b.hi.y, max a.hi.z b.hi.z⟩⟩

/-- The degenerate AABB consisting of a single point. -/
def pointBox (p : Vec3) : AABB := ⟨p, p⟩

/-- Collision envelope: the small uniform inflation margin applied to every
generated AABB and to narrow-phase tolerance (spec section 4.1 and the
glossary entry for collision envelope). -/
def envelope : ℚ := 1 / 20

/-- Minimum extent to which degenerate shape parameters are clamped so that
the generated AABB is never empty (spec section 4.1 failure mode). -/
def minExtent : ℚ := 1 / 1000

/-- Collision shape geometry: primitive kind plus parameters.
Modelled from the spec: the shape catalogue of section 3 restricted to the
primitives the claims exercise (sphere and box). -/
inductive ShapeGeom where
  | sphere (r : ℚ)
  | box (hx hy hz : ℚ)
deriving DecidableEq, Repr

/-- A collision shape: geometry attached to exactly one rigid body,
identified by the body index. -/
structure Shape where
  body : ℕ
  geom : ShapeGeom
deriving DecidableEq, Repr

/-- The set of world points covered by a shape placed at world position
`pos` with rotation `rot`.  A rigid transform maps a ball to the ball
around the transformed center, so the sphere case does not mention `rot`;
a box covers the affine image of its local extent box. -/
def inShape (g : ShapeGeom) (pos : Vec3) (rot : Mat3) (p : Vec3) : Prop :=
  match g with
  | .sphere r => normSq (p - pos) ≤ r ^ 2
  | .box hx hy hz =>
      ∃ q : Vec3, |q.x| ≤ hx ∧ |q.y| ≤ hy ∧ |q.z| ≤ hz ∧ p = pos + rot.apply q

/-- Shape parameters are well formed (nonnegative sphere radius; box
half-extents may be arbitrary since containment is vacuous when negative). -/
def paramsNonneg (g : ShapeGeom) : Prop :=
  match g with
  | .sphere r => 0 ≤ r
  | .box _ _ _ => True

instance (g : ShapeGeom) : Decidable (paramsNonneg g) := by
  cases g <;> (unfold paramsNonneg; infer_instance)

/-- Half-extent vector of the generated AABB for a shape with the given
rotation.  Modelled from the spec (section 4.1): parameters are clamped to
`minExtent` and the result is inflated by the `envelope` margin; a rotated
box is bounded per axis by the absolute row sums. -/
def aabbExtent (g : ShapeGeom) (rot : Mat3) : Vec3 :=
  match g with
  | .sphere r =>
      let s := max r minExtent + envelope
      ⟨s, s, s⟩
  | .box hx hy hz =>
      let ex := max hx minExtent
      let ey := max hy minExtent
      let ez := max hz minExtent
      ⟨|rot.r0.x| * ex + |rot.r0.y| * ey + |rot.r0.z| * ez + envelope,
       |rot.r1.x| * ex + |rot.r1.y| * ey + |rot.r1.z| * ez + envelope,
       |rot.r2.x| * ex + |rot.r2.y| * ey + |rot.r2.z| * ez + envelope⟩

/-- Modelled from the spec: the AABB generator (`ChAABBGenerator`, whose
implementation is not in the snapshot).  Given a shape's local geometry and
its body's world transform it produces a world-space AABB containing the
transformed shape, inflated by the collision envelope and clamped to a
minimum extent for degenerate parameters. -/
def GenerateAABB (g : ShapeGeom) (pos : Vec3) (rot : Mat3) : AABB :=
  ⟨pos - aabbExtent g rot, pos + aabbExtent g rot⟩

/-- Raw narrow-phase contact: the candidate shape pair, the owning bodies,
and the geometric result in a normalization-deferred form.  `dir` is the
unnormalized contact direction from the first shape toward the second (for
sphere-sphere it is the center difference, for the generic convex test it
is the oriented separating-axis candidate).  The penetration depth is the
affine function `depth0 - depthSlope * dist` of the exact length `dist` of
`dir` (sphere-sphere: `r1 + r2 - dist`; generic convex: the constant axis
overlap, slope `0`). -/
structure RawContact where
  i : ℕ
  j : ℕ
  bi : ℕ
  bj : ℕ
  dir : Vec3
  depth0 : ℚ
  depthSlope : ℚ
deriving DecidableEq, Repr

/-- Squared length of the unnormalized contact direction. -/
def RawContact.distSq (ct : RawContact) : ℚ := normSq ct.dir

/-- Penetration depth of a contact, given the exact length of its
direction vector (positive means interpenetrating, per the spec sign
convention). -/
def RawContact.depth (ct : RawContact) (dist : ℚ) : ℚ := ct.depth0 - ct.depthSlope * dist

/-- Unit contact normal, from shape `i` toward shape `j`, given the exact
length of the direction vector; a zero direction (coincident centers) uses
the defined fallback axis `(1,0,0)` (spec section 4.3 failure mode). -/
def RawContact.normal (ct : RawContact) (dist : ℚ) : Vec3 :=
  if ct.distSq = 0 then ⟨1, 0, 0⟩ else scale (1 / dist) ct.dir

/-- Modelled from the spec: the sphere-sphere narrow-phase test (the
`ChNarrowphase` implementation is not in the snapshot).  A contact is
produced when the centers are within the sum of radii plus the collision
envelope; its depth at the exact center distance is `r1 + r2 - dist`. -/
def SphereSphere (i j bi bj : ℕ) (c1 c2 : Vec3) (r1 r2 : ℚ) : Option RawContact :=
  if normSq (c2 - c1) ≤ (r1 + r2 + envelope) ^ 2 then
    some ⟨i, j, bi, bj, c2 - c1, r1 + r2, 1⟩
  else
    none

/-- Column 0 of a row-stored matrix: the world image of the local x axis. -/
def Mat3.col0 (m : Mat3) : Vec3 := ⟨m.r0.x, m.r1.x, m.r2.x⟩

/-- Column 1 of a row-stored matrix: the world image of the local y axis. -/
def Mat3.col1 (m : Mat3) : Vec3 := ⟨m.r0.y, m.r1.y, m.r2.y⟩

/-- Column 2 of a row-stored matrix: the world image of the local z axis. -/
def Mat3.col2 (m : Mat3) : Vec3 := ⟨m.r0.z, m.r1.z, m.r2.z⟩

/-- A well-formed rotation maps the local axes to unit vectors (every
rotation matrix satisfies this; orthogonality is not needed here). -/
def unitCols (m : Mat3) : Prop :=
  normSq m.col0 = 1 ∧ normSq m.col1 = 1 ∧ normSq m.col2 = 1

instance (m : Mat3) : Decidable (unitCols m) := by
  unfold unitCols; infer_instance

/-- Strict interior of a placed shape: the witness of deep
interpenetration.  A point is deep inside a sphere when strictly within
its radius, and deep inside a box when its local coordinates are strictly
within the half-extents. -/
def strictInShape (g : ShapeGeom) (pos : Vec3) (rot : Mat3) (p : Vec3) : Prop :=
  match g with
  | .sphere r => normSq (p - pos) < r ^ 2
  | .box hx hy hz =>
      ∃ q : Vec3, |q.x| < hx ∧ |q.y| < hy ∧ |q.z| < hz ∧ p = pos + rot.apply q

/-- Half-width of the projection of a placed shape onto a direction `a`
(exact for unit `a`): a sphere projects to its radius, a box to the sum of
the absolute axis projections weighted by the half-extents. -/
def projExtent (g : ShapeGeom) (m : Mat3) (a : Vec3) : ℚ :=
  match g with
  | .sphere r => r
  | .box hx hy hz =>
      |dotv m.col0 a| * hx + |dotv m.col1 a| * hy + |dotv m.col2 a| * hz

/-- Signed projection overlap of two placed shapes along a direction:
positive when the projected intervals overlap. -/
def axisOverlap (g1 : ShapeGeom) (pos1 : Vec3) (m1 : Mat3)
    (g2 : ShapeGeom) (pos2 : Vec3) (m2 : Mat3) (a : Vec3) : ℚ :=
  projExtent g1 m1 a + projExtent g2 m2 a - |dotv (pos2 - pos1) a|

/-- Face-axis candidates a placed shape contributes to the separating-axis
test: the world axes of a box, nothing for a sphere. -/
def faceAxes (g : ShapeGeom) (m : Mat3) : List Vec3 :=
  match g with
  | .sphere _ => []
  | .box _ _ _ => [m.col0, m.col1, m.col2]

/-- The candidate axis minimizing `f`, scanning left to right from `a0`. -/
def minAxis (f : Vec3 → ℚ) (a0 : Vec3) (axes : List Vec3) : Vec3 :=
  axes.foldl (fun best a => if f a < f best then a else best) a0

/-- Emit the separating-axis contact for center offset `d`, chosen axis
`amin` and its overlap `ov`: a contact is produced when the overlap is
within the collision envelope, along the axis oriented from the first
shape toward the second, with the overlap as its (constant) depth. -/
def satContact (i j bi bj : ℕ) (d amin : Vec3) (ov : ℚ) : Option RawContact :=
  if -envelope ≤ ov then
    some ⟨i, j, bi, bj, if dotv d amin < 0 then scale (-1) amin else amin, ov, 0⟩
  else
    none

/-- Modelled from the spec: the generic (approximate) convex-convex
fallback test of section 4.3, realized as a separating-axis test over the
participants' face axes, the standard approximate convex test.  If every
axis shows projection overlap within the collision envelope, one contact
is emitted along the minimum-overlap axis. -/
def ConvexConvex (i j bi bj : ℕ) (g1 : ShapeGeom) (pos1 : Vec3) (m1 : Mat3)
    (g2 : ShapeGeom) (pos2 : Vec3) (m2 : Mat3) : Option RawContact :=
  match faceAxes g1 m1 ++ faceAxes g2 m2 with
  | [] => none
  | a0 :: rest =>
      satContact i j bi bj (pos2 - pos1)
        (minAxis (axisOverlap g1 pos1 m1 g2 pos2 m2) a0 rest)
        (axisOverlap g1 pos1 m1 g2 pos2 m2
          (minAxis (axisOverlap g1 pos1 m1 g2 pos2 m2) a0 rest))

/-- Modelled from the spec: narrow-phase dispatch on the primitive kinds
of a candidate pair (section 4.3): the exact sphere-sphere test, and the
generic convex-convex fallback for every other combination. -/
def narrowShapeTest (i j bi bj : ℕ) (g1 : ShapeGeom) (pos1 : Vec3) (m1 : Mat3)
    (g2 : ShapeGeom) (pos2 : Vec3) (m2 : Mat3) : Option RawContact :=
  match g1, g2 with
  | .sphere r1, .sphere r2 => SphereSphere i j bi bj pos1 pos2 r1 r2
  | _, _ => ConvexConvex i j bi bj g1 pos1 m1 g2 pos2 m2

/-- State of one rigid body as seen by the collision system: world
transform plus the fixed flag. -/
structure BodyState where
  pos : Vec3
  rot : Mat3
  fixed : Bool
deriving DecidableEq, Repr

/-- The scene input of a collision pass: bodies, shapes (each naming its
owning body by index), and the optional active box (spec section 3). -/
structure Scene where
  bodies : List BodyState
  shapes : List Shape
  activeEnabled : Bool
  activeMin : Vec3
  activeMax : Vec3
deriving DecidableEq, Repr

/-- Collision-system state: the scene input together with the outputs of
the most recent pass (models `ChCollisionData`: the `body_active` flag
array, the candidate pair list and the contact list). -/
structure SysState where
  scene : Scene
  bodyActive : List Bool
  pairs : List (ℕ × ℕ)
  contacts : List RawContact
deriving DecidableEq, Repr

/-- World position of a body (out-of-range indices give the origin). -/
def bodyPos (sc : Scene) (b : ℕ) : Vec3 :=
  match sc.bodies.get? b with
  | some bd => bd.pos
  | none => ⟨0, 0, 0⟩

/-- World rotation of a body (out-of-range indices give the identity). -/
def bodyRot (sc : Scene) (b : ℕ) : Mat3 :=
  match sc.bodies.get? b with
  | some bd => bd.rot
  | none => idMat

/-- Fixed flag of a body (out-of-range indices count as not fixed). -/
def bodyFixed (sc : Scene) (b : ℕ) : Bool :=
  match sc.bodies.get? b with
  | some bd => bd.fixed
  | none => false

/-- World AABB of a shape: the generated AABB at the owning body's current
transform. -/
def shapeAABB (sc : Scene) (sh : Shape) : AABB :=
  GenerateAABB sh.geom (bodyPos sc sh.body) (bodyRot sc sh.body)

/-- World AABB of a body: the merge of its shapes' AABBs, seeded with the
degenerate box at the body position (a body with no shapes reduces to that
point). -/
def bodyAABB (sc : Scene) (b : ℕ) : AABB :=
  (sc.shapes.filter (fun sh => decide (sh.body = b))).foldl
    (fun acc sh => mergeAABB acc (shapeAABB sc sh)) (pointBox (bodyPos sc b))

/-- Modelled from the spec: the `body_active` flag array recomputed each
`Run()` (spec section 3): with the active box enabled, a body is active
exactly when its AABB overlaps the box; otherwise all bodies are active. -/
def computeBodyActive (sc : Scene) : List Bool :=
  (List.range sc.bodies.length).map (fun b =>
    !sc.activeEnabled || overlapB (bodyAABB sc b) ⟨sc.activeMin, sc.activeMax⟩)

/-- Look up a body's active flag (out-of-range bodies count as inactive). -/
def activeB (act : List Bool) (b : ℕ) : Bool := act.getD b false

/-- Uniform broad-phase grid: origin corner, cell size, and per-axis
resolution. -/
structure Grid where
  gmin : Vec3
  gmax : Vec3
  cell : ℚ
  resx : ℤ
  resy : ℤ
  resz : ℤ
deriving DecidableEq, Repr

/-- Floor of a rational as an integer (denominators are positive, so
floored integer division of numerator by denominator). -/
def qfloor (q : ℚ) : ℤ := q.num.fdiv q.den

/-- Ceiling of a rational as an integer. -/
def qceil (q : ℚ) : ℤ := -qfloor (-q)

/-- Clamp an integer into a closed interval. -/
def iclamp (v lo hi : ℤ) : ℤ := max lo (min v hi)

/-- Hard cap on the per-axis grid resolution, bounding the cell count
(spec section 4.2 step 2: cap grid resolution by a maximum cell count). -/
def maxRes : ℤ := 64

/-- Lower bound on the broad-phase cell size. -/
def minCell : ℚ := 1 / 10

/-- Sum of the three axis extents of an AABB. -/
def extentSum (b : AABB) : ℚ :=
  (b.hi.x - b.lo.x) + (b.hi.y - b.lo.y) + (b.hi.z - b.lo.z)

/-- Per-axis grid resolution for a span, clamped to `[1, maxRes]`. -/
def axisRes (span cell : ℚ) : ℤ := iclamp (qceil (span / cell)) 1 maxRes

/-- Modelled from the spec: broad-phase grid construction
(`DetermineBoundingBox` and `ComputeTopLevelResolution`, whose
implementations are not in the snapshot).  The bounding region of all
active AABBs is computed, the cell size derives from the average AABB
extent (clamped below), and the per-axis resolution is capped. -/
def computeGrid (boxes : List AABB) : Grid :=
  match boxes with
  | [] => ⟨⟨0, 0, 0⟩, ⟨0, 0, 0⟩, 1, 1, 1, 1⟩
  | b :: rest =>
      let bnd := rest.foldl mergeAABB b
      let n : ℚ := (boxes.length : ℚ)
      let avg := (boxes.foldl (fun acc bb => acc + extentSum bb) 0) / (3 * n)
      let cell := max avg minCell
      ⟨bnd.lo, bnd.hi, cell,
       axisRes (bnd.hi.x - bnd.lo.x) cell,
       axisRes (bnd.hi.y - bnd.lo.y) cell,
       axisRes (bnd.hi.z - bnd.lo.z) cell⟩

/-- Cell index of a coordinate along one axis, clamped to the grid
boundary (spec section 4.2 failure mode: out-of-grid indices are clamped,
never dropped). -/
def cellIdx (origin cell : ℚ) (res : ℤ) (v : ℚ) : ℤ :=
  iclamp (qfloor ((v - origin) / cell)) 0 (res - 1)

/-- The two shapes' AABBs are registered in at least one common grid cell:
their per-axis cell-index ranges intersect on every axis. -/
def sharesCellB (g : Grid) (a b : AABB) : Bool :=
  decide (cellIdx g.gmin.x g.cell g.resx a.lo.x ≤ cellIdx g.gmin.x g.cell g.resx b.hi.x) &&
  decide (cellIdx g.gmin.x g.cell g.resx b.lo.x ≤ cellIdx g.gmin.x g.cell g.resx a.hi.x) &&
  decide (cellIdx g.gmin.y g.cell g.resy a.lo.y ≤ cellIdx g.gmin.y g.cell g.resy b.hi.y) &&
  decide (cellIdx g.gmin.y g.cell g.resy b.lo.y ≤ cellIdx g.gmin.y g.cell g.resy a.hi.y) &&
  decide (cellIdx g.gmin.z g.cell g.resz a.lo.z ≤ cellIdx g.gmin.z g.cell g.resz b.hi.z) &&
  decide (cellIdx g.gmin.z g.cell g.resz b.lo.z ≤ cellIdx g.gmin.z g.cell g.resz a.hi.z)

/-- Emit the ordered pairs `(i, j)`, `i < j < n`, accepted by `pred`, in
lexicographic order.  This realizes the spec's deduplicated, deterministic
candidate list (section 4.2 steps 4 and 5: each unordered pair emitted at
most once, ordered by the `(i, j)` key). -/
def pairGen (n : ℕ) (pred : ℕ → ℕ → Bool) : List (ℕ × ℕ) :=
  (List.range n).flatMap (fun i =>
    ((List.range n).filter (fun j => decide (i < j) && pred i j)).map (fun j => (i, j)))

/-- Modelled from the spec: the broad-phase acceptance test for a shape
pair (section 4.2 steps 4 and 5): both shapes exist, both owning bodies
are active (inactive bodies are excluded from broad-phase work, section 3),
the bodies are distinct, not both fixed, the AABBs share a grid cell, and
the AABBs overlap. -/
def shapePred (sc : Scene) (act : List Bool) (g : Grid) (i j : ℕ) : Bool :=
  match sc.shapes.get? i, sc.shapes.get? j with
  | some si, some sj =>
      activeB act si.body && activeB act sj.body &&
      decide (si.body ≠ sj.body) &&
      !(bodyFixed sc si.body && bodyFixed sc sj.body) &&
      sharesCellB g (shapeAABB sc si) (shapeAABB sc sj) &&
      overlapB (shapeAABB sc si) (shapeAABB sc sj)
  | _, _ => false

/-- AABBs of the shapes whose owning body is active. -/
def activeAABBs (sc : Scene) (act : List Bool) : List AABB :=
  (sc.shapes.filter (fun sh => activeB act sh.body)).map (shapeAABB sc)

/-- Modelled from the spec: one broad-phase pass (`ChBroadphase`, whose
implementation is not in the snapshot).  Builds the grid over the active
AABBs and emits the deduplicated candidate-pair list in `(i, j)` order. -/
def OneLevelBroadphase (sc : Scene) (act : List Bool) : List (ℕ × ℕ) :=
  pairGen sc.shapes.length (shapePred sc act (computeGrid (activeAABBs sc act)))

/-- Modelled from the spec: the narrow-phase test for a candidate pair of
a scene: look up the two shapes and dispatch on their primitive kinds at
the owning bodies' current world transforms (section 4.3). -/
def narrowTest (sc : Scene) (i j : ℕ) : Option RawContact :=
  match sc.shapes.get? i, sc.shapes.get? j with
  | some si, some sj =>
      narrowShapeTest i j si.body sj.body
        si.geom (bodyPos sc si.body) (bodyRot sc si.body)
        sj.geom (bodyPos sc sj.body) (bodyRot sc sj.body)
  | _, _ => none

/-- Modelled from the spec: the narrow phase maps each broad-phase
candidate pair to its contacts (section 4.3). -/
def Narrowphase (sc : Scene) (ps : List (ℕ × ℕ)) : List RawContact :=
  ps.filterMap (fun p => narrowTest sc p.1 p.2)

/-- Modelled from the spec: `ChCollisionSystemChrono::Run()` (declared in
the header, implementation not in the snapshot).  AABB generation, active
flags, broad phase and narrow phase are recomputed from the scene input;
only the output fields of the state change. -/
def Run (s : SysState) : SysState :=
  let sc := s.scene
  let act := computeBodyActive sc
  let ps := OneLevelBroadphase sc act
  { scene := sc, bodyActive := act, pairs := ps, contacts := Narrowphase sc ps }

/-- `GetOverlappingPairs`: return the pairs of IDs for overlapping
contact shapes (header line 636). -/
def GetOverlappingPairs (s : SysState) : List (ℕ × ℕ) := s.pairs

/-- Modelled from the spec: `SetAABB` enables the active box with the given
corners (header lines 624-626). -/
def SetAABB (s : SysState) (lo hi : Vec3) : SysState :=
  { s with scene := { s.scene with activeEnabled := true, activeMin := lo, activeMax := hi } }

/-- Modelled from the spec: `ReportContacts` pushes the most recent
`Run()`'s contacts into the externally owned contact container (the
container receives exactly the reported list) and leaves the collision
system's own state unchanged (spec section 4.4). -/
def ReportContacts (s : SysState) (container : List RawContact) : List RawContact × SysState :=
  (s.contacts, s)

/-- `ReportProximities`: the header body is empty (`{}`, line 607), so both
the container and the state are returned unchanged. -/
def ReportProximities (s : SysState) (container : List RawContact) : List RawContact × SysState :=
  (container, s)

/-- Result record of a ray-hit query. -/
structure RayhitResult where
  hit : Bool
  hitPoint : Vec3
deriving DecidableEq, Repr

/-- `RayHit` against all models: the header body is `return false;`
(lines 611-613); the result record is never written. -/
def RayHit (vfrom vto : Vec3) (s : SysState) (res : RayhitResult) : Bool × RayhitResult :=
  (false, res)

/-- `RayHit` against one model: the header body is `return false;`
(lines 617-622); the result record is never written. -/
def RayHitModel (vfrom vto : Vec3) (model : ℕ) (s : SysState) (res : RayhitResult) :
    Bool × RayhitResult :=
  (false, res)

/-- Modelled from the spec: `Remove` is documented as currently not
implemented (header lines 580-582, spec section 4.4), a no-op on the
collision-system state. -/
def Remove (model : ℕ) (s : SysState) : SysState := s

/-- A non-fixed body at position `p` with the identity rotation. -/
def freeBody (p : Vec3) : BodyState := ⟨p, idMat, false⟩

/-- A fresh collision state for a scene, before any `Run()`. -/
def mkState (sc : Scene) : SysState := ⟨sc, [], [], []⟩

/-- Scene with two unit spheres at distance 5 (non-overlapping AABBs). -/
def farScene : Scene :=
  { bodies := [freeBody ⟨0, 0, 0⟩, freeBody ⟨5, 0, 0⟩],
    shapes := [⟨0, .sphere 1⟩, ⟨1, .sphere 1⟩],
    activeEnabled := false, activeMin := ⟨0, 0, 0⟩, activeMax := ⟨0, 0, 0⟩ }

/-- Scene with two unit spheres at distance 3/2 (deep interpenetration). -/
def nearScene : Scene :=
  { bodies := [freeBody ⟨0, 0, 0⟩, freeBody ⟨3 / 2, 0, 0⟩],
    shapes := [⟨0, .sphere 1⟩, ⟨1, .sphere 1⟩],
    activeEnabled := false, activeMin := ⟨0, 0, 0⟩, activeMax := ⟨0, 0, 0⟩ }

/-- The empty scene. -/
def emptyScene : Scene :=
  { bodies := [], shapes := [],
    activeEnabled := false, activeMin := ⟨0, 0, 0⟩, activeMax := ⟨0, 0, 0⟩ }

/-! Helper lemmas. -/

@[simp] theorem Vec3.sub_x (a b : Vec3) : (a - b).x = a.x - b.x := rfl

@[simp] theorem Vec3.sub_y (a b : Vec3) : (a - b).y = a.y - b.y := rfl

@[simp] theorem Vec3.sub_z (a b : Vec3) : (a - b).z = a.z - b.z := rfl

@[simp] theorem Vec3.add_x (a b : Vec3) : (a + b).x = a.x + b.x := rfl

@[simp] theorem Vec3.add_y (a b : Vec3) : (a + b).y = a.y + b.y := rfl

@[simp] theorem Vec3.add_z (a b : Vec3) : (a + b).z = a.z + b.z := rfl

@[simp] theorem scale_x (q : ℚ) (v : Vec3) : (scale q v).x = q * v.x := rfl

@[simp] theorem scale_y (q : ℚ) (v : Vec3) : (scale q v).y = q * v.y := rfl

@[simp] theorem scale_z (q : ℚ) (v : Vec3) : (scale q v).z = q * v.z := rfl

/-- Overlap of AABBs is symmetric. -/
theorem AABBoverlap_comm {a b : AABB} (h : AABBoverlap a b) : AABBoverlap b a := by
  unfold AABBoverlap at h ⊢
  tauto

/-- Membership in the generated candidate list. -/
theorem mem_pairGen {n : ℕ} {pred : ℕ → ℕ → Bool} {i j : ℕ} :
    (i, j) ∈ pairGen n pred ↔ j < n ∧ i < j ∧ pred i j = true := by
  unfold pairGen
  simp only [List.mem_flatMap, List.mem_map, List.mem_filter, List.mem_range,
    Bool.and_eq_true, decide_eq_true_eq, Prod.mk.injEq]
  constructor
  · rintro ⟨a, _, b, ⟨hbn, hab, hp⟩, rfl, rfl⟩
    exact ⟨hbn, hab, hp⟩
  · rintro ⟨hjn, hij, hp⟩
    exact ⟨i, lt_trans hij hjn, j, ⟨hjn, hij, hp⟩, rfl, rfl⟩

/-- The generated candidate list has no duplicate entries. -/
theorem pairGen_nodup (n : ℕ) (pred : ℕ → ℕ → Bool) : (pairGen n pred).Nodup := by
  unfold pairGen
  rw [List.nodup_flatMap]
  constructor
  · intro x _
    exact ((List.nodup_range n).filter _).map (fun a b h => by
      simpa using congrArg Prod.snd h)
  · have := List.pairwise_lt_range n
    refine this.imp ?_
    intro a b hab
    intro c hca hcb
    obtain ⟨ja, _, rfl⟩ := List.mem_map.mp hca
    obtain ⟨jb, _, hb⟩ := List.mem_map.mp hcb
    exact absurd (congrArg Prod.fst hb.symm) (by simpa using hab.ne)

/-- Second component of a pair produced by one `pairGen` block. -/
theorem getD_map_range {n b : ℕ} (hb : b < n) (f : ℕ → Bool) (d : Bool) :
    (((List.range n).map f).getD b d) = f b := by
  rw [List.getD_eq_getElem _ _ (by simpa using hb)]
  simp

/-- Decompose a successful broad-phase acceptance test. -/
theorem shapePred_parts {sc : Scene} {act : List Bool} {g : Grid} {i j : ℕ}
    (h : shapePred sc act g i j = true) :
    ∃ si sj, sc.shapes.get? i = some si ∧ sc.shapes.get? j = some sj ∧
      activeB act si.body = true ∧ activeB act sj.body = true ∧
      si.body ≠ sj.body ∧
      AABBoverlap (shapeAABB sc si) (shapeAABB sc sj) := by
  unfold shapePred at h
  split at h
  case _ si sj hi hj =>
    simp only [Bool.and_eq_true, decide_eq_true_eq, overlapB] at h
    exact ⟨si, sj, hi, hj, h.1.1.1.1.1, h.1.1.1.1.2, h.1.1.1.2, h.2⟩
  case _ =>
    exact absurd h (by simp)

/-- Every narrow-phase dispatch records the owning bodies it was given. -/
theorem narrowShapeTest_bodies {i j bi bj : ℕ} {g1 : ShapeGeom} {pos1 : Vec3} {m1 : Mat3}
    {g2 : ShapeGeom} {pos2 : Vec3} {m2 : Mat3} {ct : RawContact}
    (h : narrowShapeTest i j bi bj g1 pos1 m1 g2 pos2 m2 = some ct) :
    ct.bi = bi ∧ ct.bj = bj := by
  unfold narrowShapeTest at h
  split at h
  · unfold SphereSphere at h
    split at h
    · cases h
      exact ⟨rfl, rfl⟩
    · cases h
  · unfold ConvexConvex at h
    split at h
    · cases h
    · unfold satContact at h
      split at h
      · cases h
        exact ⟨rfl, rfl⟩
      · cases h

/-- A narrow-phase contact records the owning bodies of its shape pair. -/
theorem narrowTest_eq_some {sc : Scene} {i j : ℕ} {ct : RawContact}
    (h : narrowTest sc i j = some ct) :
    ∃ si sj, sc.shapes.get? i = some si ∧ sc.shapes.get? j = some sj ∧
      ct.bi = si.body ∧ ct.bj = sj.body := by
  unfold narrowTest at h
  split at h
  case _ si sj hi hj =>
    exact ⟨si, sj, hi, hj, narrowShapeTest_bodies h⟩
  case _ =>
    cases h

/-- The active flag computed for an in-range body. -/
theorem activeB_computeBodyActive {sc : Scene} {b : ℕ} (hb : b < sc.bodies.length) :
    activeB (computeBodyActive sc) b =
      (!sc.activeEnabled || overlapB (bodyAABB sc b) ⟨sc.activeMin, sc.activeMax⟩) := by
  unfold activeB computeBodyActive
  exact getD_map_range hb _ _

/-! Claim theorems. -/

/-- C1: Broad-phase soundness: a pair of shapes whose world-space AABBs do
not overlap never appears (in either order) in the candidate list produced
by `Run` and exposed by `GetOverlappingPairs`; in particular, for two unit
spheres centered at the origin and at `(5,0,0)` the candidate list is
empty. -/
theorem broadphase_soundness :
    (∀ (s : SysState) (i j : ℕ) (si sj : Shape),
        s.scene.shapes.get? i = some si → s.scene.shapes.get? j = some sj →
        ¬ AABBoverlap (shapeAABB s.scene si) (shapeAABB s.scene sj) →
        (i, j) ∉ GetOverlappingPairs (Run s) ∧ (j, i) ∉ GetOverlappingPairs (Run s)) ∧
    GetOverlappingPairs (Run (mkState farScene)) = [] := by
  constructor
  · intro s i j si sj hi hj hno
    constructor
    · intro hmem
      simp only [GetOverlappingPairs, Run, OneLevelBroadphase] at hmem
      have hpred := (mem_pairGen.mp hmem).2.2
      obtain ⟨si', sj', hi', hj', _, _, _, hov⟩ := shapePred_parts hpred
      rw [hi] at hi'
      rw [hj] at hj'
      injection hi' with e1
      injection hj' with e2
      rw [← e1, ← e2] at hov
      exact hno hov
    · intro hmem
      simp only [GetOverlappingPairs, Run, OneLevelBroadphase] at hmem
      have hpred := (mem_pairGen.mp hmem).2.2
      obtain ⟨sj', si', hj', hi', _, _, _, hov⟩ := shapePred_parts hpred
      rw [hj] at hj'
      rw [hi] at hi'
      injection hi' with e1
      injection hj' with e2
      rw [← e1, ← e2] at hov
      exact hno (AABBoverlap_comm hov)
  · with_unfolding_all decide

/-- C1 witness: the far-sphere scene has non-overlapping AABBs and the
theorem excludes the pair `(0, 1)` from the candidate list. -/
theorem broadphase_soundness_witness :
    ((mkState farScene).scene.shapes.get? 0 = some ⟨0, .sphere 1⟩ ∧
     ¬ AABBoverlap (shapeAABB farScene ⟨0, .sphere 1⟩) (shapeAABB farScene ⟨1, .sphere 1⟩)) ∧
    (0, 1) ∉ GetOverlappingPairs (Run (mkState farScene)) :=
  ⟨⟨rfl, by with_unfolding_all decide⟩,
   (broadphase_soundness.1 (mkState farScene) 0 1 ⟨0, .sphere 1⟩ ⟨1, .sphere 1⟩ rfl rfl
      (by with_unfolding_all decide)).1⟩

/-- C2: Candidate-pair list invariant: after a broad-phase pass every
entry of the candidate list is an ordered pair `(i, j)` with `i < j`, and
the list has no duplicate entries. -/
theorem candidate_pair_list_invariant :
    ∀ s : SysState, (GetOverlappingPairs (Run s)).Nodup ∧
      ∀ p, p ∈ GetOverlappingPairs (Run s) → p.1 < p.2 := by
  intro s
  constructor
  · exact pairGen_nodup _ _
  · rintro ⟨i, j⟩ hmem
    simp only [GetOverlappingPairs, Run, OneLevelBroadphase] at hmem
    exact (mem_pairGen.mp hmem).2.1

/-- C2 witness: the near-sphere scene produces the candidate `(0, 1)`, the
list is duplicate-free, and the entry is strictly ordered. -/
theorem candidate_pair_list_invariant_witness :
    (0, 1) ∈ GetOverlappingPairs (Run (mkState nearScene)) ∧
    (GetOverlappingPairs (Run (mkState nearScene))).Nodup ∧
    ((0 : ℕ), (1 : ℕ)).1 < ((0 : ℕ), (1 : ℕ)).2 :=
  ⟨by with_unfolding_all decide,
   (candidate_pair_list_invariant (mkState nearScene)).1,
   (candidate_pair_list_invariant (mkState nearScene)).2 (0, 1) (by with_unfolding_all decide)⟩

/-- C3: Idempotence of `ReportContacts`: on any state reached by one
`Run()`, a second report without an intervening `Run()` pushes the same
contact list into the container, and the collision system's own contact
data is unchanged by reporting. -/
theorem report_contacts_idempotent :
    ∀ (s0 : SysState) (c : List RawContact),
      (ReportContacts (ReportContacts (Run s0) c).2 (ReportContacts (Run s0) c).1).1 =
        (ReportContacts (Run s0) c).1 ∧
      (ReportContacts (Run s0) c).2 = Run s0 ∧
      ((ReportContacts (Run s0) c).2).contacts = (Run s0).contacts := by
  intro s0 c
  exact ⟨rfl, rfl, rfl⟩

/-- C4: Determinism of `Run()`: running the pipeline again on the
unchanged scene yields the same candidate-pair list (in the same order)
and the same contact list; `Run` never modifies its scene input. -/
theorem run_deterministic :
    ∀ s : SysState,
      GetOverlappingPairs (Run (Run s)) = GetOverlappingPairs (Run s) ∧
      (Run (Run s)).contacts = (Run s).contacts ∧
      (Run s).scene = s.scene := by
  intro s
  exact ⟨rfl, rfl, rfl⟩

/-- C7: Totality of `Run()` on degenerate scenes: with no shapes the
broad-phase candidate list and the contact set are empty (and `Run` is a
total function by construction, so no data-dependent abort exists). -/
theorem run_total_on_empty :
    ∀ s : SysState, s.scene.shapes = [] →
      GetOverlappingPairs (Run s) = [] ∧ (Run s).contacts = [] := by
  intro s h
  constructor
  · simp [GetOverlappingPairs, Run, OneLevelBroadphase, pairGen, h]
  · simp [Run, Narrowphase, OneLevelBroadphase, pairGen, h]

/-- C7 witness: the empty scene runs to empty broad-phase and contact
output. -/
theorem run_total_on_empty_witness :
    (mkState emptyScene).scene.shapes = [] ∧
    GetOverlappingPairs (Run (mkState emptyScene)) = [] :=
  ⟨rfl, (run_total_on_empty (mkState emptyScene) rfl).1⟩

/-- A square bound gives two-sided bounds. -/
theorem sq_le_bounds {a r : ℚ} (h : a ^ 2 ≤ r ^ 2) (hr : 0 ≤ r) : -r ≤ a ∧ a ≤ r := by
  constructor <;> nlinarith

/-- Componentwise bound on a dot product. -/
theorem dot_bound (a q : Vec3) (ex ey ez : ℚ)
    (h1 : |q.x| ≤ ex) (h2 : |q.y| ≤ ey) (h3 : |q.z| ≤ ez) :
    |dotv a q| ≤ |a.x| * ex + |a.y| * ey + |a.z| * ez := by
  unfold dotv
  calc |a.x * q.x + a.y * q.y + a.z * q.z|
      ≤ |a.x * q.x + a.y * q.y| + |a.z * q.z| := abs_add _ _
    _ ≤ |a.x * q.x| + |a.y * q.y| + |a.z * q.z| := by
        have := abs_add (a.x * q.x) (a.y * q.y)
        linarith
    _ = |a.x| * |q.x| + |a.y| * |q.y| + |a.z| * |q.z| := by
        rw [abs_mul, abs_mul, abs_mul]
    _ ≤ |a.x| * ex + |a.y| * ey + |a.z| * ez := by
        gcongr

/-- The squared norm is nonnegative. -/
theorem normSq_nonneg (v : Vec3) : 0 ≤ normSq v := by
  unfold normSq
  positivity

/-- Componentwise extensionality for vectors. -/
theorem Vec3.ext' {a b : Vec3} (hx : a.x = b.x) (hy : a.y = b.y) (hz : a.z = b.z) : a = b := by
  cases a
  cases b
  simp_all

/-- The dot square of a vector is its squared norm. -/
theorem dotv_self (v : Vec3) : dotv v v = normSq v := by
  unfold dotv normSq
  ring

/-- Cauchy-Schwarz in three rational dimensions. -/
theorem cauchy_schwarz_vec (u v : Vec3) : dotv u v ^ 2 ≤ normSq u * normSq v := by
  unfold dotv normSq
  nlinarith [sq_nonneg (u.x * v.y - u.y * v.x), sq_nonneg (u.x * v.z - u.z * v.x),
    sq_nonneg (u.y * v.z - u.z * v.y)]

/-- Three-term triangle inequality for absolute values. -/
theorem abs3 (x y z : ℚ) : |x + y + z| ≤ |x| + |y| + |z| := by
  have h1 := abs_add (x + y) z
  have h2 := abs_add x y
  linarith

/-- A point strictly inside a sphere projects strictly within the radius
on every unit direction. -/
theorem sphere_proj_lt {r : ℚ} {u a : Vec3} (hu : normSq u < r ^ 2) (hr : 0 ≤ r)
    (ha : normSq a = 1) : |dotv u a| < r := by
  have hcs := cauchy_schwarz_vec u a
  rw [ha, mul_one] at hcs
  have hrpos : 0 < r := by nlinarith [normSq_nonneg u]
  rw [abs_lt]
  constructor <;> nlinarith

/-- Projection of a matrix image decomposes over the columns. -/
theorem dotv_apply (m : Mat3) (q a : Vec3) :
    dotv (m.apply q) a = q.x * dotv m.col0 a + q.y * dotv m.col1 a + q.z * dotv m.col2 a := by
  unfold Mat3.apply dotv Mat3.col0 Mat3.col1 Mat3.col2
  ring

/-- A box point (local coordinates within the half-extents) projects
within the box's extent on every direction. -/
theorem box_proj_le {hx hy hz : ℚ} {m : Mat3} {q a : Vec3}
    (hqx : |q.x| ≤ hx) (hqy : |q.y| ≤ hy) (hqz : |q.z| ≤ hz) :
    |dotv (m.apply q) a| ≤ projExtent (.box hx hy hz) m a := by
  rw [dotv_apply]
  show _ ≤ |dotv m.col0 a| * hx + |dotv m.col1 a| * hy + |dotv m.col2 a| * hz
  have hb := abs3 (q.x * dotv m.col0 a) (q.y * dotv m.col1 a) (q.z * dotv m.col2 a)
  rw [abs_mul, abs_mul, abs_mul] at hb
  have t1 : |q.x| * |dotv m.col0 a| ≤ hx * |dotv m.col0 a| :=
    mul_le_mul_of_nonneg_right hqx (abs_nonneg _)
  have t2 : |q.y| * |dotv m.col1 a| ≤ hy * |dotv m.col1 a| :=
    mul_le_mul_of_nonneg_right hqy (abs_nonneg _)
  have t3 : |q.z| * |dotv m.col2 a| ≤ hz * |dotv m.col2 a| :=
    mul_le_mul_of_nonneg_right hqz (abs_nonneg _)
  linarith

/-- A strictly interior box point projects strictly within the box's
extent along any of the box's own (unit) face axes. -/
theorem box_proj_lt {hx hy hz : ℚ} {m : Mat3} {q a : Vec3}
    (hqx : |q.x| < hx) (hqy : |q.y| < hy) (hqz : |q.z| < hz)
    (ha : normSq a = 1) (hmem : a ∈ faceAxes (.box hx hy hz) m) :
    |dotv (m.apply q) a| < projExtent (.box hx hy hz) m a := by
  rw [dotv_apply]
  show _ < |dotv m.col0 a| * hx + |dotv m.col1 a| * hy + |dotv m.col2 a| * hz
  have hb := abs3 (q.x * dotv m.col0 a) (q.y * dotv m.col1 a) (q.z * dotv m.col2 a)
  rw [abs_mul, abs_mul, abs_mul] at hb
  have t1 : |q.x| * |dotv m.col0 a| ≤ hx * |dotv m.col0 a| :=
    mul_le_mul_of_nonneg_right hqx.le (abs_nonneg _)
  have t2 : |q.y| * |dotv m.col1 a| ≤ hy * |dotv m.col1 a| :=
    mul_le_mul_of_nonneg_right hqy.le (abs_nonneg _)
  have t3 : |q.z| * |dotv m.col2 a| ≤ hz * |dotv m.col2 a| :=
    mul_le_mul_of_nonneg_right hqz.le (abs_nonneg _)
  simp only [faceAxes, List.mem_cons, List.not_mem_nil, or_false] at hmem
  rcases hmem with rfl | rfl | rfl
  · have hone : |dotv m.col0 m.col0| = 1 := by rw [dotv_self, ha, abs_one]
    have s1 : |q.x| * |dotv m.col0 m.col0| < hx * |dotv m.col0 m.col0| := by
      rw [hone, mul_one, mul_one]
      exact hqx
    linarith
  · have hone : |dotv m.col1 m.col1| = 1 := by rw [dotv_self, ha, abs_one]
    have s2 : |q.y| * |dotv m.col1 m.col1| < hy * |dotv m.col1 m.col1| := by
      rw [hone, mul_one, mul_one]
      exact hqy
    linarith
  · have hone : |dotv m.col2 m.col2| = 1 := by rw [dotv_self, ha, abs_one]
    have s3 : |q.z| * |dotv m.col2 m.col2| < hz * |dotv m.col2 m.col2| := by
      rw [hone, mul_one, mul_one]
      exact hqz
    linarith

/-- A strictly interior point of a placed shape projects within the
shape's extent on every unit direction. -/
theorem shape_proj_le {g : ShapeGeom} {pos : Vec3} {m : Mat3} {p a : Vec3}
    (hs : strictInShape g pos m p) (hpar : paramsNonneg g) (ha : normSq a = 1) :
    |dotv (p - pos) a| ≤ projExtent g m a := by
  cases g with
  | sphere r =>
      have h1 : normSq (p - pos) < r ^ 2 := hs
      have hr : 0 ≤ r := hpar
      exact (sphere_proj_lt h1 hr ha).le
  | box hx hy hz =>
      obtain ⟨q, hqx, hqy, hqz, rfl⟩ := hs
      have hpp : (pos + m.apply q) - pos = m.apply q := Vec3.ext' (by simp) (by simp) (by simp)
      rw [hpp]
      exact box_proj_le hqx.le hqy.le hqz.le

/-- A strictly interior point projects strictly within the extent along
the shape's own face axes. -/
theorem shape_proj_lt_own {g : ShapeGeom} {pos : Vec3} {m : Mat3} {p a : Vec3}
    (hs : strictInShape g pos m p) (ha : normSq a = 1) (hmem : a ∈ faceAxes g m) :
    |dotv (p - pos) a| < projExtent g m a := by
  cases g with
  | sphere r => simp [faceAxes] at hmem
  | box hx hy hz =>
      obtain ⟨q, hqx, hqy, hqz, rfl⟩ := hs
      have hpp : (pos + m.apply q) - pos = m.apply q := Vec3.ext' (by simp) (by simp) (by simp)
      rw [hpp]
      exact box_proj_lt hqx hqy hqz ha hmem

/-- The center-offset projection is bounded by the two anchored
projections through a common point. -/
theorem proj_split (pos1 pos2 p a : Vec3) :
    |dotv (pos2 - pos1) a| ≤ |dotv (p - pos1) a| + |dotv (p - pos2) a| := by
  have hd : dotv (pos2 - pos1) a = dotv (p - pos1) a - dotv (p - pos2) a := by
    unfold dotv
    simp only [Vec3.sub_x, Vec3.sub_y, Vec3.sub_z]
    ring
  rw [hd, sub_eq_add_neg]
  have h1 := abs_add (dotv (p - pos1) a) (-dotv (p - pos2) a)
  rw [abs_neg] at h1
  exact h1

/-- Every face axis of a shape under a well-formed rotation is unit. -/
theorem faceAxes_unit {g : ShapeGeom} {m : Mat3} {a : Vec3}
    (hu : unitCols m) (hmem : a ∈ faceAxes g m) : normSq a = 1 := by
  cases g with
  | sphere r => simp [faceAxes] at hmem
  | box hx hy hz =>
      simp only [faceAxes, List.mem_cons, List.not_mem_nil, or_false] at hmem
      rcases hmem with rfl | rfl | rfl
      exacts [hu.1, hu.2.1, hu.2.2]

/-- Two shapes sharing a strictly interior point overlap strictly on every
face axis of either shape. -/
theorem axisOverlap_pos {g1 : ShapeGeom} {pos1 : Vec3} {m1 : Mat3}
    {g2 : ShapeGeom} {pos2 : Vec3} {m2 : Mat3} {p a : Vec3}
    (h1 : strictInShape g1 pos1 m1 p) (h2 : strictInShape g2 pos2 m2 p)
    (hpar1 : paramsNonneg g1) (hpar2 : paramsNonneg g2) (ha : normSq a = 1)
    (hmem : a ∈ faceAxes g1 m1 ∨ a ∈ faceAxes g2 m2) :
    0 < axisOverlap g1 pos1 m1 g2 pos2 m2 a := by
  have hsplit := proj_split pos1 pos2 p a
  show 0 < projExtent g1 m1 a + projExtent g2 m2 a - |dotv (pos2 - pos1) a|
  rcases hmem with hm | hm
  · have s1 := shape_proj_lt_own h1 ha hm
    have s2 := shape_proj_le h2 hpar2 ha
    linarith
  · have s1 := shape_proj_le h1 hpar1 ha
    have s2 := shape_proj_lt_own h2 ha hm
    linarith

/-- The smallest axis in a scan is one of the candidates. -/
theorem minAxis_mem (f : Vec3 → ℚ) (a0 : Vec3) (axes : List Vec3) :
    minAxis f a0 axes ∈ a0 :: axes := by
  induction axes generalizing a0 with
  | nil => simp [minAxis]
  | cons b rest ih =>
      unfold minAxis
      rw [List.foldl_cons]
      by_cases hb : f b < f a0
      · rw [if_pos hb]
        exact List.mem_cons_of_mem a0 (ih b)
      · rw [if_neg hb]
        show minAxis f a0 rest ∈ a0 :: b :: rest
        rcases List.mem_cons.mp (ih a0) with h | h
        · rw [h]
          exact List.mem_cons_self a0 (b :: rest)
        · exact List.mem_cons_of_mem a0 (List.mem_cons_of_mem b h)

/-- The smallest axis in a scan minimizes `f` over the candidates. -/
theorem minAxis_le (f : Vec3 → ℚ) (a0 : Vec3) (axes : List Vec3) :
    ∀ a ∈ a0 :: axes, f (minAxis f a0 axes) ≤ f a := by
  induction axes generalizing a0 with
  | nil =>
      intro a ha
      rcases List.mem_cons.mp ha with rfl | h
      · simp [minAxis]
      · simp at h
  | cons b rest ih =>
      intro a ha
      unfold minAxis
      rw [List.foldl_cons]
      by_cases hb : f b < f a0
      · rw [if_pos hb]
        have hself : f (minAxis f b rest) ≤ f b := ih b b (List.mem_cons_self b rest)
        rcases List.mem_cons.mp ha with rfl | ha2
        · have := hself
          calc f (minAxis f b rest) ≤ f b := hself
            _ ≤ f a := hb.le
        · exact ih b a ha2
      · rw [if_neg hb]
        have hself : f (minAxis f a0 rest) ≤ f a0 := ih a0 a0 (List.mem_cons_self a0 rest)
        rcases List.mem_cons.mp ha with rfl | ha2
        · exact hself
        · rcases List.mem_cons.mp ha2 with rfl | ha3
          · calc f (minAxis f a0 rest) ≤ f a0 := hself
              _ ≤ f a := le_of_not_lt hb
          · exact ih a0 a (List.mem_cons_of_mem a0 ha3)

/-- Every contact normal computed at a direction length consistent with
the contact's direction vector has exactly unit squared norm (the
coincident-center fallback axis included). -/
theorem normal_unitSq (ct : RawContact) (dist : ℚ) (hd : dist ^ 2 = ct.distSq) :
    normSq (ct.normal dist) = 1 := by
  unfold RawContact.normal
  by_cases h0 : ct.distSq = 0
  · rw [if_pos h0]
    norm_num [normSq]
  · rw [if_neg h0]
    have hdist0 : dist ≠ 0 := by
      intro h
      apply h0
      rw [← hd, h]
      ring
    have hsc : normSq (scale (1 / dist) ct.dir) = (1 / dist) ^ 2 * normSq ct.dir := by
      simp only [normSq, scale_x, scale_y, scale_z]
      ring
    rw [hsc]
    have hds : normSq ct.dir = ct.distSq := rfl
    rw [hds, ← hd]
    field_simp

/-- A positive-overlap separating-axis result is a contact with positive
depth and unit normal. -/
theorem satContact_ok (i j bi bj : ℕ) (d amin : Vec3) (ov : ℚ) (hov : 0 < ov) :
    ∃ ct : RawContact, satContact i j bi bj d amin ov = some ct ∧
      ∀ dist : ℚ, 0 ≤ dist → dist ^ 2 = ct.distSq →
        0 < ct.depth dist ∧ normSq (ct.normal dist) = 1 := by
  unfold satContact
  have henv : (0 : ℚ) < envelope := by norm_num [envelope]
  rw [if_pos (by linarith : -envelope ≤ ov)]
  refine ⟨_, rfl, ?_⟩
  intro dist hd0 hdsq
  refine ⟨?_, normal_unitSq _ dist hdsq⟩
  show 0 < ov - 0 * dist
  linarith

/-- With at least one box participant, two shapes sharing a strictly
interior point pass the generic convex fallback test with positive depth
and unit normal. -/
theorem convex_fallback_ok (i j bi bj : ℕ) (g1 : ShapeGeom) (pos1 : Vec3) (m1 : Mat3)
    (g2 : ShapeGeom) (pos2 : Vec3) (m2 : Mat3) (p : Vec3)
    (hp1 : strictInShape g1 pos1 m1 p) (hp2 : strictInShape g2 pos2 m2 p)
    (hpar1 : paramsNonneg g1) (hpar2 : paramsNonneg g2)
    (hu1 : unitCols m1) (hu2 : unitCols m2)
    (a0 : Vec3) (rest : List Vec3)
    (haxes : faceAxes g1 m1 ++ faceAxes g2 m2 = a0 :: rest) :
    ∃ ct : RawContact, ConvexConvex i j bi bj g1 pos1 m1 g2 pos2 m2 = some ct ∧
      ∀ dist : ℚ, 0 ≤ dist → dist ^ 2 = ct.distSq →
        0 < ct.depth dist ∧ normSq (ct.normal dist) = 1 := by
  have hpos : ∀ a ∈ a0 :: rest, 0 < axisOverlap g1 pos1 m1 g2 pos2 m2 a := by
    intro a hmem
    rw [← haxes] at hmem
    have hmem' := List.mem_append.mp hmem
    have haunit : normSq a = 1 := by
      rcases hmem' with hm | hm
      · exact faceAxes_unit hu1 hm
      · exact faceAxes_unit hu2 hm
    exact axisOverlap_pos hp1 hp2 hpar1 hpar2 haunit hmem'
  unfold ConvexConvex
  rw [haxes]
  exact satContact_ok i j bi bj (pos2 - pos1) _ _
    (hpos _ (minAxis_mem (axisOverlap g1 pos1 m1 g2 pos2 m2) a0 rest))

/-- Coincident interior points force the sphere centers strictly closer
than the sum of radii. -/
theorem centers_close {c1 c2 p : Vec3} {r1 r2 : ℚ}
    (h1 : normSq (p - c1) < r1 ^ 2) (h2 : normSq (p - c2) < r2 ^ 2)
    (hr1 : 0 ≤ r1) (hr2 : 0 ≤ r2) :
    normSq (c2 - c1) < (r1 + r2) ^ 2 := by
  have hexp : normSq (c2 - c1) =
      normSq (p - c1) + normSq (p - c2) - 2 * dotv (p - c1) (p - c2) := by
    unfold normSq dotv
    simp only [Vec3.sub_x, Vec3.sub_y, Vec3.sub_z]
    ring
  have hcs := cauchy_schwarz_vec (p - c1) (p - c2)
  have hn1 := normSq_nonneg (p - c1)
  have hn2 := normSq_nonneg (p - c2)
  have hr1p : 0 < r1 := by nlinarith
  have hr2p : 0 < r2 := by nlinarith
  have hab : normSq (p - c1) * normSq (p - c2) < (r1 * r2) ^ 2 := by nlinarith
  have hT : -(r1 * r2) < dotv (p - c1) (p - c2) := by
    nlinarith [sq_nonneg (dotv (p - c1) (p - c2) + r1 * r2), mul_pos hr1p hr2p]
  rw [hexp]
  nlinarith

/-- C5: Narrow-phase contact contract: every pair of deeply
interpenetrating convex primitives (sharing a strictly interior point,
with well-formed parameters and rotations) produces at least one contact
whose penetration depth at the exact direction length is positive and
whose normal has exactly unit length — via the exact sphere-sphere test
or the generic convex fallback; concretely, unit spheres centered at the
origin and at `(3/2,0,0)` yield exactly one contact through the full
pipeline, with depth `1/2` and normal `(1,0,0)`. -/
theorem narrowphase_contact_contract :
    (∀ (i j bi bj : ℕ) (g1 g2 : ShapeGeom) (pos1 pos2 : Vec3) (m1 m2 : Mat3),
        paramsNonneg g1 → paramsNonneg g2 → unitCols m1 → unitCols m2 →
        (∃ p : Vec3, strictInShape g1 pos1 m1 p ∧ strictInShape g2 pos2 m2 p) →
        ∃ ct : RawContact, narrowShapeTest i j bi bj g1 pos1 m1 g2 pos2 m2 = some ct ∧
          ∀ dist : ℚ, 0 ≤ dist → dist ^ 2 = ct.distSq →
            0 < ct.depth dist ∧ normSq (ct.normal dist) = 1) ∧
    ((Run (mkState nearScene)).contacts = [⟨0, 1, 0, 1, ⟨3 / 2, 0, 0⟩, 2, 1⟩] ∧
     RawContact.depth ⟨0, 1, 0, 1, ⟨3 / 2, 0, 0⟩, 2, 1⟩ (3 / 2) = 1 / 2 ∧
     RawContact.normal ⟨0, 1, 0, 1, ⟨3 / 2, 0, 0⟩, 2, 1⟩ (3 / 2) = ⟨1, 0, 0⟩) := by
  constructor
  · intro i j bi bj g1 g2 pos1 pos2 m1 m2 hpar1 hpar2 hu1 hu2 hcommon
    obtain ⟨p, hp1, hp2⟩ := hcommon
    cases g1 with
    | sphere r1 =>
        cases g2 with
        | sphere r2 =>
            have h1 : normSq (p - pos1) < r1 ^ 2 := hp1
            have h2 : normSq (p - pos2) < r2 ^ 2 := hp2
            have hr1 : 0 ≤ r1 := hpar1
            have hr2 : 0 ≤ r2 := hpar2
            have hdeep : normSq (pos2 - pos1) < (r1 + r2) ^ 2 := centers_close h1 h2 hr1 hr2
            have henv : (0 : ℚ) ≤ envelope := by norm_num [envelope]
            have hcond : normSq (pos2 - pos1) ≤ (r1 + r2 + envelope) ^ 2 := by nlinarith
            show ∃ ct : RawContact, SphereSphere i j bi bj pos1 pos2 r1 r2 = some ct ∧ _
            unfold SphereSphere
            rw [if_pos hcond]
            refine ⟨_, rfl, ?_⟩
            intro dist hd0 hdsq
            refine ⟨?_, normal_unitSq _ dist hdsq⟩
            have hds : (⟨i, j, bi, bj, pos2 - pos1, r1 + r2, 1⟩ : RawContact).distSq =
                normSq (pos2 - pos1) := rfl
            rw [hds] at hdsq
            show 0 < r1 + r2 - 1 * dist
            nlinarith
        | box b1 b2 b3 =>
            exact convex_fallback_ok i j bi bj _ pos1 m1 _ pos2 m2 p hp1 hp2 hpar1 hpar2
              hu1 hu2 m2.col0 [m2.col1, m2.col2] rfl
    | box b1 b2 b3 =>
        cases g2 with
        | sphere r2 =>
            exact convex_fallback_ok i j bi bj _ pos1 m1 _ pos2 m2 p hp1 hp2 hpar1 hpar2
              hu1 hu2 m1.col0 [m1.col1, m1.col2] rfl
        | box c1 c2 c3 =>
            exact convex_fallback_ok i j bi bj _ pos1 m1 _ pos2 m2 p hp1 hp2 hpar1 hpar2
              hu1 hu2 m1.col0 [m1.col1, m1.col2, m2.col0, m2.col1, m2.col2] rfl
  · refine ⟨by with_unfolding_all decide, by with_unfolding_all decide,
      by with_unfolding_all decide⟩

/-- C5 witness: the deep-interpenetration hypotheses hold for the two unit
spheres at distance `3/2` (common interior point `(3/4,0,0)`), and the
theorem produces the contact. -/
theorem narrowphase_contact_contract_witness :
    (paramsNonneg (.sphere 1) ∧ unitCols idMat ∧
     strictInShape (.sphere 1) ⟨0, 0, 0⟩ idMat ⟨3 / 4, 0, 0⟩ ∧
     strictInShape (.sphere 1) ⟨3 / 2, 0, 0⟩ idMat ⟨3 / 4, 0, 0⟩) ∧
    (∃ ct : RawContact,
      narrowShapeTest 0 1 0 1 (.sphere 1) ⟨0, 0, 0⟩ idMat (.sphere 1) ⟨3 / 2, 0, 0⟩ idMat =
        some ct ∧
      ∀ dist : ℚ, 0 ≤ dist → dist ^ 2 = ct.distSq →
        0 < ct.depth dist ∧ normSq (ct.normal dist) = 1) :=
  ⟨⟨by with_unfolding_all decide, by with_unfolding_all decide,
    show normSq ((⟨3 / 4, 0, 0⟩ : Vec3) - ⟨0, 0, 0⟩) < (1 : ℚ) ^ 2 by with_unfolding_all decide,
    show normSq ((⟨3 / 4, 0, 0⟩ : Vec3) - ⟨3 / 2, 0, 0⟩) < (1 : ℚ) ^ 2 by
      with_unfolding_all decide⟩,
   narrowphase_contact_contract.1 0 1 0 1 (.sphere 1) (.sphere 1) ⟨0, 0, 0⟩ ⟨3 / 2, 0, 0⟩
     idMat idMat (by with_unfolding_all decide) (by with_unfolding_all decide)
     (by with_unfolding_all decide) (by with_unfolding_all decide)
     ⟨⟨3 / 4, 0, 0⟩,
      show normSq ((⟨3 / 4, 0, 0⟩ : Vec3) - ⟨0, 0, 0⟩) < (1 : ℚ) ^ 2 by with_unfolding_all decide,
      show normSq ((⟨3 / 4, 0, 0⟩ : Vec3) - ⟨3 / 2, 0, 0⟩) < (1 : ℚ) ^ 2 by
        with_unfolding_all decide⟩⟩

/-- C6: AABB generator correctness: for every supported shape (with
well-formed parameters) and every world transform, the generated AABB
contains the transformed shape; and for every parameter choice, including
degenerate ones such as zero radius, the AABB is non-empty (extent clamped
below by the minimum extent and envelope). -/
theorem aabb_generator_contains :
    ∀ (g : ShapeGeom) (pos : Vec3) (rot : Mat3) (p : Vec3), paramsNonneg g →
      (inShape g pos rot p → inAABB p (GenerateAABB g pos rot)) ∧
      ((GenerateAABB g pos rot).lo.x < (GenerateAABB g pos rot).hi.x ∧
       (GenerateAABB g pos rot).lo.y < (GenerateAABB g pos rot).hi.y ∧
       (GenerateAABB g pos rot).lo.z < (GenerateAABB g pos rot).hi.z) := by
  intro g pos rot p hpar
  have hminpos : (0 : ℚ) < minExtent := by norm_num [minExtent]
  have henv : (0 : ℚ) < envelope := by norm_num [envelope]
  cases g with
  | sphere r =>
      have hr : 0 ≤ r := hpar
      constructor
      · intro hin
        unfold inShape at hin
        unfold normSq at hin
        simp only [Vec3.sub_x, Vec3.sub_y, Vec3.sub_z] at hin
        have hrs : r ≤ max r minExtent + envelope :=
          le_trans (le_max_left r minExtent) (by linarith)
        have hx := sq_le_bounds (by nlinarith : (p.x - pos.x) ^ 2 ≤ r ^ 2) hr
        have hy := sq_le_bounds (by nlinarith : (p.y - pos.y) ^ 2 ≤ r ^ 2) hr
        have hz := sq_le_bounds (by nlinarith : (p.z - pos.z) ^ 2 ≤ r ^ 2) hr
        unfold GenerateAABB aabbExtent inAABB
        simp only [Vec3.sub_x, Vec3.sub_y, Vec3.sub_z, Vec3.add_x, Vec3.add_y, Vec3.add_z]
        refine ⟨?_, ?_, ?_, ?_, ?_, ?_⟩ <;>
          [linarith [hx.1]; linarith [hx.2]; linarith [hy.1]; linarith [hy.2];
           linarith [hz.1]; linarith [hz.2]]
      · have hs : 0 < max r minExtent + envelope := by
          have := le_max_right r minExtent
          linarith
        unfold GenerateAABB aabbExtent
        simp only [Vec3.sub_x, Vec3.sub_y, Vec3.sub_z, Vec3.add_x, Vec3.add_y, Vec3.add_z]
        exact ⟨by linarith, by linarith, by linarith⟩
  | box bx byy bz =>
      have hex : (0 : ℚ) ≤ max bx minExtent := le_trans hminpos.le (le_max_right _ _)
      have hey : (0 : ℚ) ≤ max byy minExtent := le_trans hminpos.le (le_max_right _ _)
      have hez : (0 : ℚ) ≤ max bz minExtent := le_trans hminpos.le (le_max_right _ _)
      constructor
      · rintro ⟨q, hqx, hqy, hqz, rfl⟩
        have hqx' : |q.x| ≤ max bx minExtent := le_trans hqx (le_max_left _ _)
        have hqy' : |q.y| ≤ max byy minExtent := le_trans hqy (le_max_left _ _)
        have hqz' : |q.z| ≤ max bz minExtent := le_trans hqz (le_max_left _ _)
        have h0 := abs_le.mp (dot_bound rot.r0 q _ _ _ hqx' hqy' hqz')
        have h1 := abs_le.mp (dot_bound rot.r1 q _ _ _ hqx' hqy' hqz')
        have h2 := abs_le.mp (dot_bound rot.r2 q _ _ _ hqx' hqy' hqz')
        unfold GenerateAABB aabbExtent inAABB Mat3.apply
        simp only [Vec3.sub_x, Vec3.sub_y, Vec3.sub_z, Vec3.add_x, Vec3.add_y, Vec3.add_z]
        refine ⟨?_, ?_, ?_, ?_, ?_, ?_⟩ <;>
          [linarith [h0.1]; linarith [h0.2]; linarith [h1.1]; linarith [h1.2];
           linarith [h2.1]; linarith [h2.2]]
      · have t0 : 0 ≤ |rot.r0.x| * max bx minExtent + |rot.r0.y| * max byy minExtent +
            |rot.r0.z| * max bz minExtent := by positivity
        have t1 : 0 ≤ |rot.r1.x| * max bx minExtent + |rot.r1.y| * max byy minExtent +
            |rot.r1.z| * max bz minExtent := by positivity
        have t2 : 0 ≤ |rot.r2.x| * max bx minExtent + |rot.r2.y| * max byy minExtent +
            |rot.r2.z| * max bz minExtent := by positivity
        unfold GenerateAABB aabbExtent
        simp only [Vec3.sub_x, Vec3.sub_y, Vec3.sub_z, Vec3.add_x, Vec3.add_y, Vec3.add_z]
        exact ⟨by linarith, by linarith, by linarith⟩

/-- C6 witness: the degenerate zero-radius sphere at the origin: the
origin itself lies in the generated AABB. -/
theorem aabb_generator_contains_witness :
    paramsNonneg (.sphere 0) ∧ inAABB ⟨0, 0, 0⟩ (GenerateAABB (.sphere 0) ⟨0, 0, 0⟩ idMat) :=
  ⟨by with_unfolding_all decide,
   (aabb_generator_contains (.sphere 0) ⟨0, 0, 0⟩ idMat ⟨0, 0, 0⟩
      (by with_unfolding_all decide)).1
     (show normSq ((⟨0, 0, 0⟩ : Vec3) - ⟨0, 0, 0⟩) ≤ (0 : ℚ) ^ 2 by with_unfolding_all decide)⟩

/-- C8: Unsupported operations signal not-implemented: both `RayHit`
overloads return `false` and never write the result record, and `Remove`
is a no-op that leaves the collision-system state unchanged, so previously
added shapes keep participating identically in subsequent runs. -/
theorem unsupported_ops_signal :
    ∀ (vfrom vto : Vec3) (model : ℕ) (s : SysState) (res : RayhitResult),
      RayHit vfrom vto s res = (false, res) ∧
      RayHitModel vfrom vto model s res = (false, res) ∧
      Remove model s = s ∧
      Run (Remove model s) = Run s := by
  intro _ _ _ _ _
  exact ⟨rfl, rfl, rfl, rfl⟩

/-- C9: Active-box exclusion: after enabling the active box via `SetAABB`,
every body whose AABB lies entirely outside the box is marked inactive in
the `body_active` array, and the contact set produced by `Run` contains no
contact involving that body. -/
theorem active_box_exclusion :
    ∀ (s0 : SysState) (lo hi : Vec3) (b : ℕ),
      b < (SetAABB s0 lo hi).scene.bodies.length →
      ¬ AABBoverlap (bodyAABB (SetAABB s0 lo hi).scene b) ⟨lo, hi⟩ →
      activeB (Run (SetAABB s0 lo hi)).bodyActive b = false ∧
      ∀ ct ∈ (Run (SetAABB s0 lo hi)).contacts, ct.bi ≠ b ∧ ct.bj ≠ b := by
  intro s0 lo hi b hb hout
  have hact : activeB (computeBodyActive (SetAABB s0 lo hi).scene) b = false := by
    rw [activeB_computeBodyActive hb]
    have hen : (SetAABB s0 lo hi).scene.activeEnabled = true := rfl
    have hmin : (SetAABB s0 lo hi).scene.activeMin = lo := rfl
    have hmax : (SetAABB s0 lo hi).scene.activeMax = hi := rfl
    rw [hen, hmin, hmax]
    simp only [Bool.not_true, Bool.false_or, overlapB, decide_eq_false_iff_not]
    exact hout
  refine ⟨hact, ?_⟩
  rintro ct hct
  simp only [Run, Narrowphase, OneLevelBroadphase] at hct
  obtain ⟨⟨i, j⟩, hp, hnt⟩ := List.mem_filterMap.mp hct
  have hpred := (mem_pairGen.mp hp).2.2
  obtain ⟨si, sj, hi', hj', hai, haj, _, _⟩ := shapePred_parts hpred
  obtain ⟨si', sj', hi'', hj'', hbi, hbj⟩ := narrowTest_eq_some hnt
  rw [hi'] at hi''
  rw [hj'] at hj''
  injection hi'' with e1
  injection hj'' with e2
  constructor
  · intro hEq
    rw [e1, ← hbi, hEq] at hai
    rw [hact] at hai
    cases hai
  · intro hEq
    rw [e2, ← hbj, hEq] at haj
    rw [hact] at haj
    cases haj

/-- C9 witness: with the active box far from both near-scene spheres,
body 0 is marked inactive. -/
theorem active_box_exclusion_witness :
    (0 < (SetAABB (mkState nearScene) ⟨10, 10, 10⟩ ⟨11, 11, 11⟩).scene.bodies.length ∧
     ¬ AABBoverlap (bodyAABB (SetAABB (mkState nearScene) ⟨10, 10, 10⟩ ⟨11, 11, 11⟩).scene 0)
        ⟨⟨10, 10, 10⟩, ⟨11, 11, 11⟩⟩) ∧
    activeB (Run (SetAABB (mkState nearScene) ⟨10, 10, 10⟩ ⟨11, 11, 11⟩)).bodyActive 0 = false :=
  ⟨⟨by with_unfolding_all decide, by with_unfolding_all decide⟩,
   (active_box_exclusion (mkState nearScene) ⟨10, 10, 10⟩ ⟨11, 11, 11⟩ 0
      (by with_unfolding_all decide) (by with_unfolding_all decide)).1⟩

/-- C10: `ReportProximities` is a no-op: the proximity container and the
collision-system state are both returned unchanged, exactly as the empty
inline body in the header dictates. -/
theorem report_proximities_noop :
    ∀ (s : SysState) (c : List RawContact), ReportProximities s c = (c, s) := by
  intro _ _
  rfl

end ChronoCollision
